import Mathlib

/-!
Verification of `amazon_job_monitor.py` (job-change-detector).

The Python program is shallowly embedded: every function below is a direct
translation of the corresponding function of `src/amazon_job_monitor.py`.
Python strings are Lean `String`s; string primitives that the program uses
(`strip`, `split`, `startswith`, the `in` substring test, `sorted`) are
implemented here over `String.data` so that every definition is executable
by the kernel.  The HTTP layer, the SMTP transaction and the `json` text
codec of the standard library are external collaborators of the program
(spec §6); they appear as the boundaries of the embedding: the fetched page
arrives already parsed as a flattened element sequence, and the snapshot
file is modelled by the JSON value its bytes parse to.
-/

namespace JobMonitor

/-- Python `str.strip()` / BeautifulSoup `get_text(strip=True)` whitespace
test, over one character. -/
def isSpaceChar (c : Char) : Bool :=
  c = ' ' || c = '\t' || c = '\n' || c = '\r'

/-- Python `str.strip()` on the underlying character list. -/
def stripChars (l : List Char) : List Char :=
  ((l.dropWhile isSpaceChar).reverse.dropWhile isSpaceChar).reverse

/-- Python `str.strip()`. -/
def pyStrip (s : String) : String :=
  (stripChars s.data).asString

/-- Python `str.startswith(pat)` on character lists. -/
def pyStartsWith (s pat : String) : Bool :=
  pat.data.isPrefixOf s.data

/-- Python substring containment `pat in s` on character lists:
`pat` is a prefix of some suffix of `s`. -/
def containsChars (pat : List Char) : List Char → Bool
  | [] => pat.isEmpty
  | c :: cs => pat.isPrefixOf (c :: cs) || containsChars pat cs

/-- Python substring containment `pat in s`. -/
def strContains (s pat : String) : Bool :=
  containsChars pat.data s.data

/-- Python `str.split(sep)` for a one-character separator, on character
lists; `split` keeps empty fields, and splitting the empty string yields
one empty field. -/
def splitOnChar (sep : Char) : List Char → List (List Char)
  | [] => [[]]
  | c :: cs =>
    if c = sep then [] :: splitOnChar sep cs
    else
      match splitOnChar sep cs with
      | [] => [[c]]
      | g :: gs => (c :: g) :: gs

/-- Python `recipients.split(",")`. -/
def pySplitComma (s : String) : List String :=
  (splitOnChar ',' s.data).map List.asString

/-- Strict lexicographic order on character lists, by Unicode code point:
the comparison Python's `sorted` performs on `str` values. -/
def lexLt : List Char → List Char → Bool
  | [], [] => false
  | [], _ :: _ => true
  | _ :: _, [] => false
  | a :: as, b :: bs =>
    if a < b then true
    else if b < a then false
    else lexLt as bs

/-- Non-strict code-point order on strings (`a ≤ b` iff `¬ b < a`),
the order Python's `sorted` arranges `str` lists into. -/
def pyLeR (a b : String) : Prop := lexLt b.data a.data = false

/-- Strict code-point order on strings, used to state that the sorted
outputs are strictly ascending (hence duplicate-free). -/
def strLtR (a b : String) : Prop := lexLt a.data b.data = true

instance : DecidableRel pyLeR :=
  fun a b => inferInstanceAs (Decidable (lexLt b.data a.data = false))

instance : DecidableRel strLtR :=
  fun a b => inferInstanceAs (Decidable (lexLt a.data b.data = true))

/-- Python `sorted` on a list of strings: ascending code-point
lexicographic order. -/
def pySorted (l : List String) : List String :=
  List.insertionSort pyLeR l

/-- Boolean membership of a string in a string list (Python `in` on a set
of keys). -/
def memStr (k : String) (l : List String) : Bool :=
  l.any (fun x => x == k)

/-- A Python dict from job title to URL (`Dict[str, str]`): an
insertion-ordered association list whose keys are unique by construction. -/
abbrev JobMap := List (String × String)

/-- One HTML element as BeautifulSoup exposes it to this program: its tag
name, its `get_text()` value, and its `href` attribute when present. -/
structure Tag where
  name : String
  text : String
  href : Option String
deriving DecidableEq

/-- A parsed HTML document, flattened to its elements in document order
(pre-order).  `find` scans this sequence from the front, and
`find_all_next(tag)` is exactly the part of the sequence after `tag`. -/
abbrev Doc := List Tag

/-- Python dict assignment `jobs[title] = link`: overwrite in place when
the key exists, append otherwise. -/
def dictInsert (m : JobMap) (k v : String) : JobMap :=
  if m.any (fun kv => kv.1 == k) then
    m.map (fun kv => if kv.1 == k then (k, v) else kv)
  else m ++ [(k, v)]

/-- The fixed page URL (`AmazonJobMonitor.JOBS_URL`). -/
def JOBS_URL : String :=
  "https://www.amazon.jobs/content/de/teams/fulfillment-and-operations/germany"

/-- `requests.compat.urljoin(JOBS_URL, link)` for the only arguments the
program passes it: links beginning with `/`.  A scheme-relative `//host/p`
keeps the base scheme; a root-relative `/p` keeps scheme and host. -/
def urljoinBase (link : String) : String :=
  if pyStartsWith link "//" then "https:" ++ link
  else "https://www.amazon.jobs" ++ link

/-- Lines 158-160 of the source: a link beginning with `/` is resolved
against `JOBS_URL`; every other link is kept verbatim. -/
def normalizeHref (link : String) : String :=
  if pyStartsWith link "/" then urljoinBase link else link

/-- The `soup.find` predicate of line 139: tag name `h4` or `h3` and
`"Rheinland"` occurring in the tag text. -/
def headingMatches (t : Tag) : Bool :=
  (t.name == "h4" || t.name == "h3") && strContains t.text "Rheinland"

/-- The stop test of line 150: the sibling is an `h3` or `h4` heading. -/
def isStateHeading (t : Tag) : Bool :=
  t.name == "h3" || t.name == "h4"

/-- `soup.find(pred)` followed by `find_all_next()`: the elements after
the first match, or `none` when no element matches. -/
def afterFirstMatch (p : Tag → Bool) : List Tag → Option (List Tag)
  | [] => none
  | t :: ts => if p t then some ts else afterFirstMatch p ts

/-- The body of the collection loop (lines 152-161) for one non-heading
element: an anchor with a truthy `href` is stripped, normalised and
inserted; everything else is skipped. -/
def anchorStep (jobs : JobMap) (t : Tag) : JobMap :=
  if t.name == "a" then
    match t.href with
    | none => jobs
    | some link =>
      if link == "" then jobs
      else dictInsert jobs (pyStrip t.text) (normalizeHref link)
  else jobs

/-- The collection loop of lines 148-161: walk the elements after the
heading, stop at the first `h3`/`h4`, and feed every other element to
`anchorStep`. -/
def collectJobs : List Tag → JobMap → JobMap
  | [], jobs => jobs
  | t :: ts, jobs =>
    if isStateHeading t then jobs
    else collectJobs ts (anchorStep jobs t)

/-- `fetch_rheinland_jobs` (lines 109-162) from the parsed document on:
the HTTP fetch of lines 118-132 is the external boundary (its failure
branch returns the empty dict before this code runs).  Find the first
`h3`/`h4` heading containing `"Rheinland"`; absent, return the empty
dict; otherwise collect anchors until the next `h3`/`h4`. -/
def fetch_rheinland_jobs (doc : Doc) : JobMap :=
  match afterFirstMatch headingMatches doc with
  | none => []
  | some rest => collectJobs rest []

/-- The claim's reading of the extracted span: the mapping built from
every link element of the span, visible text to URL, in order. -/
def spanLinks (span : List Tag) : JobMap :=
  span.foldl anchorStep []

/-- `compare_jobs` (lines 164-183) with the implicit `self.previous_jobs`
made explicit: set difference of the key sets, each side sorted. -/
def compare_jobs (previous current : JobMap) : List String × List String :=
  let previous_titles := (previous.map Prod.fst).dedup
  let current_titles := (current.map Prod.fst).dedup
  (pySorted (current_titles.filter (fun k => !memStr k previous_titles)),
   pySorted (previous_titles.filter (fun k => !memStr k current_titles)))

/-- A JSON value as Python's `json` module parses it (`str`, `int`/number,
`bool`, `None`, `list`, `dict`). -/
inductive JVal where
  | str : String → JVal
  | num : Int → JVal
  | jbool : Bool → JVal
  | null : JVal
  | arr : List JVal → JVal
  | obj : List (String × JVal) → JVal

/-- Whether a parsed JSON value is an object — Python's
`isinstance(data, dict)` on line 95. -/
def JVal.isObj : JVal → Bool
  | .obj _ => true
  | _ => false

/-- The state of `previous_jobs.json` as `_load_previous_jobs` can
encounter it.  The byte-level `json` codec is the external boundary: a
file is either absent, raises on open or on `json.load` (`unreadable`),
or parses to a JSON value. -/
inductive FileContent where
  | absent
  | unreadable
  | parsed (v : JVal)

/-- `_load_previous_jobs` (lines 89-99).  Returns the loaded dict together
with the flag "a warning was logged": a missing file returns the empty
dict silently; an open/parse failure is caught, logged and returns the
empty dict; a parsed non-dict value falls through to `return` with the
empty dict and no warning. -/
def load_previous_jobs (file : FileContent) : List (String × JVal) × Bool :=
  match file with
  | .absent => ([], false)
  | .unreadable => ([], true)
  | .parsed (JVal.obj entries) => (entries, false)
  | .parsed _ => ([], false)

/-- The JSON value `json.dump(jobs, ...)` writes for a `Dict[str, str]`:
the object with the same keys in the same order and string values. -/
def encodeJobs (jobs : JobMap) : JVal :=
  JVal.obj (jobs.map (fun kv => (kv.1, JVal.str kv.2)))

/-- `_save_current_jobs` (lines 101-107): overwrite the file with the
serialized dict (the `json` text codec being the external boundary, the
file afterwards parses back to exactly `encodeJobs jobs`). -/
def save_current_jobs (jobs : JobMap) : FileContent :=
  FileContent.parsed (encodeJobs jobs)

/-- Read a string-valued object back as a `Dict[str, str]`; `none` when
some value is not a string. -/
def decodeEntries : List (String × JVal) → Option JobMap
  | [] => some []
  | (k, JVal.str v) :: rest => (decodeEntries rest).map (fun m => (k, v) :: m)
  | _ :: _ => none

/-- The six environment variables `send_email` reads (lines 196-201);
`none` models an unset variable. -/
structure SmtpEnv where
  SMTP_HOST : Option String
  SMTP_PORT : Option String
  SMTP_USERNAME : Option String
  SMTP_PASSWORD : Option String
  SENDER_EMAIL : Option String
  RECIPIENTS : Option String

/-- Python truthiness of an optional string: `None` and `""` are falsy. -/
def truthyStr : Option String → Bool
  | none => false
  | some s => !(s == "")

/-- The observable outcome of one `send_email` call; the SMTP transaction
itself (lines 220-234) is external I/O past the `attemptedDelivery`
boundary. -/
inductive EmailOutcome where
  | skippedIncompleteConfig
  | skippedNoRecipients
  | attemptedDelivery (toAddresses : List String)
deriving DecidableEq

/-- `send_email` (lines 185-218) up to the SMTP transaction: skip with a
warning when some variable is unset or empty (line 203), build the
stripped non-empty recipient list (line 209), skip with a warning when it
is empty (lines 210-212), otherwise attempt delivery to it. -/
def send_email (env : SmtpEnv) : EmailOutcome :=
  if !(truthyStr env.SMTP_HOST && truthyStr env.SMTP_PORT &&
       truthyStr env.SMTP_USERNAME && truthyStr env.SMTP_PASSWORD &&
       truthyStr env.SENDER_EMAIL && truthyStr env.RECIPIENTS) then
    EmailOutcome.skippedIncompleteConfig
  else
    let recipients := env.RECIPIENTS.getD ""
    let to_addresses :=
      ((pySplitComma recipients).map pyStrip).filter (fun a => !(a == ""))
    if to_addresses.isEmpty then EmailOutcome.skippedNoRecipients
    else EmailOutcome.attemptedDelivery to_addresses

/-- The mutable state one loop iteration touches: the in-memory
`self.previous_jobs` and the snapshot file. -/
structure MonitorState where
  previous_jobs : JobMap
  snapshotFile : FileContent

/-- What one iteration did: the state it leaves behind, and whether
`send_email` and `_save_current_jobs` were invoked. -/
structure CycleResult where
  state : MonitorState
  emailInvoked : Bool
  saveInvoked : Bool

/-- One iteration of the `while True` loop of `run` (lines 241-266), with
the fetched mapping as input (the fetch itself is network I/O): diff
against `self.previous_jobs`; when something was added or removed, call
`send_email`, set `self.previous_jobs` to the current dict and save it;
otherwise touch nothing. -/
def runCycle (s : MonitorState) (current_jobs : JobMap) : CycleResult :=
  let ar := compare_jobs s.previous_jobs current_jobs
  if ar.1 ≠ [] ∨ ar.2 ≠ [] then
    { state := { previous_jobs := current_jobs,
                 snapshotFile := save_current_jobs current_jobs },
      emailInvoked := true, saveInvoked := true }
  else
    { state := s, emailInvoked := false, saveInvoked := false }

/-- Scenario 1 of the spec, as a flattened document: a `Rheinland-Pfalz`
heading, two links, a `Saarland` heading, one more link. -/
def scenario1Doc : Doc :=
  [⟨"h4", "Rheinland-Pfalz", none⟩,
   ⟨"a", "Warehouse Associate", some "/job/1"⟩,
   ⟨"a", "Driver", some "/job/2"⟩,
   ⟨"h4", "Saarland", none⟩,
   ⟨"a", "Amazon Sortierer", some "/job/3"⟩]

/-- A document whose single in-span link carries a relative href that
does not begin with `/`. -/
def relHrefDoc : Doc :=
  [⟨"h4", "Rheinland-Pfalz", none⟩,
   ⟨"a", "Night Shift", some "job/9"⟩]

/-- The claim's notion of an absolute URL: one carrying an explicit
http or https scheme. -/
def isAbsoluteUrl (s : String) : Bool :=
  pyStartsWith s "http://" || pyStartsWith s "https://"

end JobMonitor

namespace JobMonitor

theorem lexLt_irrefl : ∀ l, lexLt l l = false
  | [] => rfl
  | a :: as => by simp [lexLt, lexLt_irrefl as]

theorem lexLt_asymm : ∀ l₁ l₂, lexLt l₁ l₂ = true → lexLt l₂ l₁ = false
  | [], [], h => by simp [lexLt] at h
  | [], _ :: _, _ => by simp [lexLt]
  | _ :: _, [], h => by simp [lexLt] at h
  | a :: as, b :: bs, h => by
    rcases lt_trichotomy a b with hab | hab | hab
    · simp [lexLt, hab, lt_asymm hab]
    · subst hab
      simp only [lexLt, lt_irrefl, if_false] at h ⊢
      exact lexLt_asymm as bs h
    · simp [lexLt, hab, lt_asymm hab] at h

theorem lexLt_trans : ∀ l₁ l₂ l₃, lexLt l₁ l₂ = true → lexLt l₂ l₃ = true → lexLt l₁ l₃ = true
  | _, l₂, [], _, h₂ => by cases l₂ <;> simp [lexLt] at h₂
  | [], _, _ :: _, _, _ => by simp [lexLt]
  | _ :: _, [], _ :: _, h₁, _ => by simp [lexLt] at h₁
  | a :: as, b :: bs, c :: cs, h₁, h₂ => by
    rcases lt_trichotomy a b with hab | hab | hab
    · rcases lt_trichotomy b c with hbc | hbc | hbc
      · simp [lexLt, lt_trans hab hbc]
      · subst hbc; simp [lexLt, hab]
      · simp [lexLt, hbc, lt_asymm hbc] at h₂
    · subst hab
      rcases lt_trichotomy a c with hac | hac | hac
      · simp [lexLt, hac]
      · subst hac
        simp only [lexLt, lt_irrefl, if_false] at h₁ h₂ ⊢
        exact lexLt_trans as bs cs h₁ h₂
      · rcases lt_trichotomy a c with h | h | h
        · exact absurd h (not_lt_of_gt hac)
        · exact absurd h (ne_of_gt hac)
        · simp [lexLt, h, lt_asymm h] at h₂
    · simp [lexLt, hab, lt_asymm hab] at h₁

theorem lexLt_eq_of_not : ∀ l₁ l₂, lexLt l₁ l₂ = false → lexLt l₂ l₁ = false → l₁ = l₂
  | [], [], _, _ => rfl
  | [], _ :: _, h₁, _ => by simp [lexLt] at h₁
  | _ :: _, [], _, h₂ => by simp [lexLt] at h₂
  | a :: as, b :: bs, h₁, h₂ => by
    rcases lt_trichotomy a b with hab | hab | hab
    · simp [lexLt, hab] at h₁
    · subst hab
      simp only [lexLt, lt_irrefl, if_false] at h₁ h₂
      rw [lexLt_eq_of_not as bs h₁ h₂]
    · simp [lexLt, hab] at h₂

theorem string_data_inj {a b : String} (h : a.data = b.data) : a = b := by
  cases a; cases b; exact congrArg String.mk h

theorem pyLeR_total : ∀ a b : String, pyLeR a b ∨ pyLeR b a := by
  intro a b
  unfold pyLeR
  cases h : lexLt b.data a.data with
  | false => exact Or.inl rfl
  | true => exact Or.inr (lexLt_asymm _ _ h)

theorem pyLeR_trans : ∀ a b c : String, pyLeR a b → pyLeR b c → pyLeR a c := by
  intro a b c hab hbc
  unfold pyLeR at *
  by_contra hca
  rw [Bool.not_eq_false] at hca
  cases hbc' : lexLt b.data c.data with
  | true => exact absurd (lexLt_trans _ _ _ hbc' hca) (by rw [hab]; simp)
  | false =>
    have hbc'' : b = c := string_data_inj (lexLt_eq_of_not _ _ hbc' hbc)
    subst hbc''
    rw [hab] at hca
    exact absurd hca (by simp)

theorem strLtR_of_pyLeR_ne {a b : String} (h : pyLeR a b) (hne : a ≠ b) : strLtR a b := by
  unfold pyLeR at h
  unfold strLtR
  cases hab : lexLt a.data b.data with
  | true => rfl
  | false => exact absurd (string_data_inj (lexLt_eq_of_not _ _ hab h)) hne

theorem sorted_pySorted (l : List String) : (pySorted l).Sorted pyLeR := by
  haveI : IsTotal String pyLeR := ⟨pyLeR_total⟩
  haveI : IsTrans String pyLeR := ⟨pyLeR_trans⟩
  exact List.sorted_insertionSort pyLeR l

theorem mem_pySorted {k : String} {l : List String} : k ∈ pySorted l ↔ k ∈ l :=
  List.mem_insertionSort pyLeR

theorem nodup_pySorted {l : List String} (h : l.Nodup) : (pySorted l).Nodup :=
  ((List.perm_insertionSort pyLeR l).nodup_iff).mpr h

theorem sorted_strict_of_nodup {l : List String} (hs : l.Sorted pyLeR) (hn : l.Nodup) :
    l.Sorted strLtR := by
  induction l with
  | nil => simp
  | cons a l ih =>
    rw [List.sorted_cons] at hs ⊢
    rw [List.nodup_cons] at hn
    refine ⟨fun b hb => strLtR_of_pyLeR_ne (hs.1 b hb) ?_, ih hs.2 hn.2⟩
    intro hab
    exact hn.1 (hab ▸ hb)

theorem memStr_iff {k : String} {l : List String} : memStr k l = true ↔ k ∈ l := by
  simp [memStr, List.any_eq_true]

end JobMonitor

namespace JobMonitor

theorem memStr_false_iff {k : String} {l : List String} : memStr k l = false ↔ k ∉ l := by
  rw [← memStr_iff]
  cases memStr k l <;> simp

theorem mem_sorted_diff {k : String} {xs ys : List String} :
    k ∈ pySorted (xs.dedup.filter (fun x => !memStr x ys.dedup)) ↔ (k ∈ xs ∧ k ∉ ys) := by
  rw [mem_pySorted, List.mem_filter]
  simp [memStr_false_iff, List.mem_dedup]

theorem sorted_diff_side (xs ys : List String) :
    (pySorted (xs.dedup.filter (fun x => !memStr x ys.dedup))).Sorted strLtR := by
  refine sorted_strict_of_nodup (sorted_pySorted _) (nodup_pySorted ?_)
  exact (List.nodup_dedup xs).filter _

/-- C2: the added list is exactly the keys of `current` absent from
`previous` and the removed list exactly the keys of `previous` absent
from `current`, each strictly ascending in code-point lexicographic
order. -/
theorem differ_added_removed_exact_sorted (previous current : JobMap) :
    (∀ k, k ∈ (compare_jobs previous current).1 ↔
      (k ∈ current.map Prod.fst ∧ k ∉ previous.map Prod.fst)) ∧
    (compare_jobs previous current).1.Sorted strLtR ∧
    (∀ k, k ∈ (compare_jobs previous current).2 ↔
      (k ∈ previous.map Prod.fst ∧ k ∉ current.map Prod.fst)) ∧
    (compare_jobs previous current).2.Sorted strLtR := by
  refine ⟨fun k => ?_, ?_, fun k => ?_, ?_⟩
  · exact mem_sorted_diff
  · exact sorted_diff_side _ _
  · exact mem_sorted_diff
  · exact sorted_diff_side _ _

theorem differ_added_removed_witness :
    (∀ k, k ∈ (compare_jobs [("A", "u1")] [("A", "u1"), ("B", "u2")]).1 ↔
      (k ∈ [("A", "u1"), ("B", "u2")].map Prod.fst ∧ k ∉ [("A", "u1")].map Prod.fst)) ∧
    (compare_jobs [("A", "u1")] [("A", "u1"), ("B", "u2")]).1.Sorted strLtR ∧
    (∀ k, k ∈ (compare_jobs [("A", "u1")] [("A", "u1"), ("B", "u2")]).2 ↔
      (k ∈ [("A", "u1")].map Prod.fst ∧ k ∉ [("A", "u1"), ("B", "u2")].map Prod.fst)) ∧
    (compare_jobs [("A", "u1")] [("A", "u1"), ("B", "u2")]).2.Sorted strLtR :=
  differ_added_removed_exact_sorted [("A", "u1")] [("A", "u1"), ("B", "u2")]

/-- C6: the added and removed lists of one diff are disjoint, and the
added list of `diff A B` is the removed list of `diff B A`. -/
theorem differ_disjoint_symmetric (A B : JobMap) :
    (∀ k, k ∈ (compare_jobs A B).1 → k ∉ (compare_jobs A B).2) ∧
    (compare_jobs A B).1 = (compare_jobs B A).2 := by
  constructor
  · intro k hk hk2
    have h1 := mem_sorted_diff.mp hk
    have h2 := mem_sorted_diff.mp hk2
    exact h1.2 h2.1
  · rfl

theorem differ_disjoint_symmetric_witness :
    (∀ k, k ∈ (compare_jobs [("A", "u1")] [("B", "u2")]).1 →
      k ∉ (compare_jobs [("A", "u1")] [("B", "u2")]).2) ∧
    (compare_jobs [("A", "u1")] [("B", "u2")]).1 =
      (compare_jobs [("B", "u2")] [("A", "u1")]).2 :=
  differ_disjoint_symmetric [("A", "u1")] [("B", "u2")]

end JobMonitor

namespace JobMonitor

theorem afterFirstMatch_append {p : Tag → Bool} {pre : List Tag} (h : Tag) (rest : List Tag)
    (hpre : ∀ t ∈ pre, p t = false) (hh : p h = true) :
    afterFirstMatch p (pre ++ h :: rest) = some rest := by
  induction pre with
  | nil => simp [afterFirstMatch, hh]
  | cons t ts ih =>
    rw [List.cons_append, afterFirstMatch, hpre t (List.mem_cons_self t ts)]
    simp only [Bool.false_eq_true, if_false]
    exact ih (fun x hx => hpre x (List.mem_cons_of_mem t hx))

theorem afterFirstMatch_none {p : Tag → Bool} {doc : List Tag}
    (hdoc : ∀ t ∈ doc, p t = false) :
    afterFirstMatch p doc = none := by
  induction doc with
  | nil => rfl
  | cons t ts ih =>
    rw [afterFirstMatch, hdoc t (List.mem_cons_self t ts)]
    simp only [Bool.false_eq_true, if_false]
    exact ih (fun x hx => hdoc x (List.mem_cons_of_mem t hx))

theorem collectJobs_stop {mid post : List Tag} {h2 : Tag}
    (hmid : ∀ t ∈ mid, isStateHeading t = false) (hh2 : isStateHeading h2 = true) :
    ∀ acc, collectJobs (mid ++ h2 :: post) acc = mid.foldl anchorStep acc := by
  induction mid with
  | nil => intro acc; simp [collectJobs, hh2]
  | cons t ts ih =>
    intro acc
    rw [List.cons_append, collectJobs, hmid t (List.mem_cons_self t ts)]
    simp only [Bool.false_eq_true, if_false]
    rw [List.foldl_cons]
    exact ih (fun x hx => hmid x (List.mem_cons_of_mem t hx)) (anchorStep acc t)

/-- C1: when a matching heading is followed by a span of non-heading
elements and then another `h3`/`h4` heading, extraction returns exactly
the link mapping of the span — every element at or after the next heading
is excluded — and on the Scenario-1 document it returns exactly the two
Rheinland-Pfalz links. -/
theorem extract_heading_bounded (pre mid post : List Tag) (h h2 : Tag)
    (hpre : ∀ t ∈ pre, headingMatches t = false)
    (hh : headingMatches h = true)
    (hmid : ∀ t ∈ mid, isStateHeading t = false)
    (hh2 : isStateHeading h2 = true) :
    fetch_rheinland_jobs (pre ++ h :: (mid ++ h2 :: post)) = spanLinks mid ∧
    fetch_rheinland_jobs scenario1Doc =
      [("Warehouse Associate", "https://www.amazon.jobs/job/1"),
       ("Driver", "https://www.amazon.jobs/job/2")] := by
  constructor
  · rw [fetch_rheinland_jobs, afterFirstMatch_append h (mid ++ h2 :: post) hpre hh]
    exact collectJobs_stop hmid hh2 []
  · decide

theorem extract_heading_bounded_witness :
    fetch_rheinland_jobs
        ([] ++ (⟨"h4", "Rheinland-Pfalz", none⟩ : Tag) ::
          ([⟨"a", "Warehouse Associate", some "/job/1"⟩, ⟨"a", "Driver", some "/job/2"⟩] ++
            (⟨"h4", "Saarland", none⟩ : Tag) :: [⟨"a", "Amazon Sortierer", some "/job/3"⟩])) =
      spanLinks [⟨"a", "Warehouse Associate", some "/job/1"⟩, ⟨"a", "Driver", some "/job/2"⟩] ∧
    fetch_rheinland_jobs scenario1Doc =
      [("Warehouse Associate", "https://www.amazon.jobs/job/1"),
       ("Driver", "https://www.amazon.jobs/job/2")] :=
  extract_heading_bounded []
    [⟨"a", "Warehouse Associate", some "/job/1"⟩, ⟨"a", "Driver", some "/job/2"⟩]
    [⟨"a", "Amazon Sortierer", some "/job/3"⟩]
    ⟨"h4", "Rheinland-Pfalz", none⟩ ⟨"h4", "Saarland", none⟩
    (by decide) (by decide) (by decide) (by decide)

/-- C8: with no matching heading anywhere in the document, extraction is
empty, and diffing that empty extraction against a non-empty previous
snapshot reports nothing added and every previous key removed (sorted). -/
theorem missing_region_empty_extraction_diff (doc : Doc) (P : JobMap)
    (hdoc : ∀ t ∈ doc, headingMatches t = false) (hP : P ≠ []) :
    fetch_rheinland_jobs doc = [] ∧
    compare_jobs P (fetch_rheinland_jobs doc) =
      ([], pySorted (P.map Prod.fst).dedup) ∧
    (∀ k, k ∈ (compare_jobs P (fetch_rheinland_jobs doc)).2 ↔ k ∈ P.map Prod.fst) := by
  have hempty : fetch_rheinland_jobs doc = [] := by
    rw [fetch_rheinland_jobs, afterFirstMatch_none hdoc]
  refine ⟨hempty, ?_, ?_⟩
  · rw [hempty]
    simp only [compare_jobs, List.map_nil, List.dedup_nil, List.filter_nil]
    have hfilter : (List.filter (fun k => !memStr k []) (P.map Prod.fst).dedup) =
        (P.map Prod.fst).dedup := by
      apply List.filter_eq_self.mpr
      intro a _
      rfl
    rw [hfilter]
    rfl
  · intro k
    rw [hempty]
    show k ∈ pySorted ((P.map Prod.fst).dedup.filter (fun k => !memStr k ([] : List String).dedup)) ↔ _
    rw [mem_sorted_diff]
    simp

end JobMonitor

namespace JobMonitor

theorem missing_region_witness :
    fetch_rheinland_jobs [⟨"h4", "Hessen", none⟩, ⟨"a", "X", some "/job/7"⟩] = [] ∧
    compare_jobs [("A", "u1"), ("B", "u2")]
        (fetch_rheinland_jobs [⟨"h4", "Hessen", none⟩, ⟨"a", "X", some "/job/7"⟩]) =
      ([], pySorted ([("A", "u1"), ("B", "u2")].map Prod.fst).dedup) ∧
    (∀ k, k ∈ (compare_jobs [("A", "u1"), ("B", "u2")]
        (fetch_rheinland_jobs [⟨"h4", "Hessen", none⟩, ⟨"a", "X", some "/job/7"⟩])).2 ↔
      k ∈ [("A", "u1"), ("B", "u2")].map Prod.fst) :=
  missing_region_empty_extraction_diff
    [⟨"h4", "Hessen", none⟩, ⟨"a", "X", some "/job/7"⟩]
    [("A", "u1"), ("B", "u2")] (by decide) (by decide)

theorem mem_dictInsert {p : String × String} {m : JobMap} {k v : String}
    (h : p ∈ dictInsert m k v) : p ∈ m ∨ p = (k, v) := by
  rw [dictInsert] at h
  split at h
  · rcases List.mem_map.mp h with ⟨kv, hkv, heq⟩
    by_cases hk : (kv.1 == k) = true
    · right
      rw [if_pos hk] at heq
      exact heq.symm
    · left
      rw [if_neg hk] at heq
      exact heq ▸ hkv
  · rcases List.mem_append.mp h with h' | h'
    · exact Or.inl h'
    · right
      simpa using h'

theorem mem_anchorStep {p : String × String} {jobs : JobMap} {t : Tag}
    (h : p ∈ anchorStep jobs t) :
    p ∈ jobs ∨ ∃ l, t.name = "a" ∧ t.href = some l ∧ l ≠ "" ∧
      p = (pyStrip t.text, normalizeHref l) := by
  rw [anchorStep] at h
  split at h
  · rename_i hname
    split at h
    · exact Or.inl h
    · rename_i link hhref
      split at h
      · exact Or.inl h
      · rename_i hlink
        rcases mem_dictInsert h with h' | h'
        · exact Or.inl h'
        · exact Or.inr ⟨link, by simpa using hname, hhref, by simpa using hlink, h'⟩
  · exact Or.inl h

theorem mem_collectJobs {p : String × String} :
    ∀ {ts : List Tag} {acc : JobMap}, p ∈ collectJobs ts acc →
      p ∈ acc ∨ ∃ t ∈ ts, t.name = "a" ∧ ∃ l, t.href = some l ∧ l ≠ "" ∧
        p = (pyStrip t.text, normalizeHref l) := by
  intro ts
  induction ts with
  | nil =>
    intro acc h
    exact Or.inl h
  | cons t rest ih =>
    intro acc h
    rw [collectJobs] at h
    split at h
    · exact Or.inl h
    · rcases ih h with h' | ⟨t', ht', hrest⟩
      · rcases mem_anchorStep h' with h'' | ⟨l, hl⟩
        · exact Or.inl h''
        · exact Or.inr ⟨t, List.mem_cons_self t rest, hl.1, l, hl.2.1, hl.2.2.1, hl.2.2.2⟩
      · exact Or.inr ⟨t', List.mem_cons_of_mem t ht', hrest⟩

theorem afterFirstMatch_subset {p : Tag → Bool} :
    ∀ {doc rest : List Tag}, afterFirstMatch p doc = some rest → ∀ t ∈ rest, t ∈ doc := by
  intro doc
  induction doc with
  | nil =>
    intro rest h
    simp [afterFirstMatch] at h
  | cons x xs ih =>
    intro rest h t ht
    rw [afterFirstMatch] at h
    split at h
    · cases h
      exact List.mem_cons_of_mem x ht
    · exact List.mem_cons_of_mem x (ih h t ht)

theorem isAbs_of_slash (l : String) :
    isAbsoluteUrl (urljoinBase l) = true := by
  rw [urljoinBase]
  by_cases h2 : pyStartsWith l "//" = true
  · rw [if_pos h2]
    have : pyStartsWith ("https:" ++ l) "https://" = true := by
      rw [pyStartsWith, String.data_append]
      show List.isPrefixOf ['/', '/'] l.data = true
      exact h2
    rw [isAbsoluteUrl, this, Bool.or_true]
  · rw [if_neg h2]
    have : pyStartsWith ("https://www.amazon.jobs" ++ l) "https://" = true := by
      rw [pyStartsWith, String.data_append]
      rfl
    rw [isAbsoluteUrl, this, Bool.or_true]

/-- C3 counterexample: in this document the single collected link has
href `job/9`, which is relative, and the stored URL value is `job/9`
itself — not an absolute URL — so the claim that every stored value is
absolute fails. -/
theorem relative_href_stored_verbatim :
    fetch_rheinland_jobs relHrefDoc = [("Night Shift", "job/9")] ∧
    isAbsoluteUrl "job/9" = false ∧
    pyStartsWith "job/9" "http://" = false ∧ pyStartsWith "job/9" "https://" = false := by
  decide

/-- C3 amended: every URL value stored by extraction is the normalisation
of the href of some anchor of the document, where a href beginning with
a slash is resolved against the page URL and is then absolute, and any
other href — relative or not — is stored verbatim. -/
theorem href_normalization_amended (doc : Doc) (k v : String)
    (h : (k, v) ∈ fetch_rheinland_jobs doc) :
    ∃ l, (∃ t ∈ doc, t.name = "a" ∧ t.href = some l ∧
        k = pyStrip t.text) ∧ v = normalizeHref l ∧
      (pyStartsWith l "/" = true → v = urljoinBase l ∧ isAbsoluteUrl v = true) ∧
      (pyStartsWith l "/" = false → v = l) := by
  rw [fetch_rheinland_jobs] at h
  cases hm : afterFirstMatch headingMatches doc with
  | none =>
    rw [hm] at h
    simp at h
  | some rest =>
    rw [hm] at h
    rcases mem_collectJobs h with h' | ⟨t, ht, hname, l, hhref, hne, hp⟩
    · simp at h'
    · have hkv : k = pyStrip t.text ∧ v = normalizeHref l := by
        constructor
        · exact congrArg Prod.fst hp
        · exact congrArg Prod.snd hp
      refine ⟨l, ⟨t, afterFirstMatch_subset hm t ht, hname, hhref, hkv.1⟩, hkv.2, ?_, ?_⟩
      · intro hsl
        rw [hkv.2, normalizeHref, if_pos hsl]
        exact ⟨rfl, isAbs_of_slash l⟩
      · intro hsl
        rw [hkv.2, normalizeHref, if_neg (by simp [hsl])]

theorem href_normalization_witness :
    ∃ l, (∃ t ∈ scenario1Doc, t.name = "a" ∧ t.href = some l ∧
        "Driver" = pyStrip t.text) ∧
      "https://www.amazon.jobs/job/2" = normalizeHref l ∧
      (pyStartsWith l "/" = true →
        "https://www.amazon.jobs/job/2" = urljoinBase l ∧
        isAbsoluteUrl "https://www.amazon.jobs/job/2" = true) ∧
      (pyStartsWith l "/" = false → "https://www.amazon.jobs/job/2" = l) :=
  href_normalization_amended scenario1Doc "Driver" "https://www.amazon.jobs/job/2" (by decide)

end JobMonitor

namespace JobMonitor

/-- C4: one loop iteration invokes the notifier and the snapshot save
exactly when the diff reports an addition or a removal; with an empty
diff the whole monitor state (in-memory previous mapping and snapshot
file) is left untouched. -/
theorem monitor_cycle_gates_on_diff (s : MonitorState) (current_jobs : JobMap) :
    ((runCycle s current_jobs).emailInvoked = true ↔
      ((compare_jobs s.previous_jobs current_jobs).1 ≠ [] ∨
       (compare_jobs s.previous_jobs current_jobs).2 ≠ [])) ∧
    ((runCycle s current_jobs).saveInvoked = true ↔
      ((compare_jobs s.previous_jobs current_jobs).1 ≠ [] ∨
       (compare_jobs s.previous_jobs current_jobs).2 ≠ [])) ∧
    ((compare_jobs s.previous_jobs current_jobs).1 = [] ∧
     (compare_jobs s.previous_jobs current_jobs).2 = [] →
      (runCycle s current_jobs).state = s) := by
  by_cases h : (compare_jobs s.previous_jobs current_jobs).1 ≠ [] ∨
      (compare_jobs s.previous_jobs current_jobs).2 ≠ []
  · rw [runCycle]
    simp only [h, if_pos h, iff_true]
    refine ⟨rfl, rfl, fun he => ?_⟩
    rcases h with h' | h'
    · exact absurd he.1 h'
    · exact absurd he.2 h'
  · rw [runCycle]
    simp only [h, if_neg h, iff_false]
    exact ⟨by simp, by simp, fun _ => rfl⟩

theorem monitor_cycle_witness :
    ((runCycle ⟨[("A", "u1")], FileContent.absent⟩ [("A", "u1")]).emailInvoked = true ↔
      ((compare_jobs [("A", "u1")] [("A", "u1")]).1 ≠ [] ∨
       (compare_jobs [("A", "u1")] [("A", "u1")]).2 ≠ [])) ∧
    ((runCycle ⟨[("A", "u1")], FileContent.absent⟩ [("A", "u1")]).saveInvoked = true ↔
      ((compare_jobs [("A", "u1")] [("A", "u1")]).1 ≠ [] ∨
       (compare_jobs [("A", "u1")] [("A", "u1")]).2 ≠ [])) ∧
    ((compare_jobs [("A", "u1")] [("A", "u1")]).1 = [] ∧
     (compare_jobs [("A", "u1")] [("A", "u1")]).2 = [] →
      (runCycle ⟨[("A", "u1")], FileContent.absent⟩ [("A", "u1")]).state =
        ⟨[("A", "u1")], FileContent.absent⟩) :=
  monitor_cycle_gates_on_diff ⟨[("A", "u1")], FileContent.absent⟩ [("A", "u1")]

theorem decode_encode : ∀ M : JobMap,
    decodeEntries (M.map (fun kv => (kv.1, JVal.str kv.2))) = some M
  | [] => rfl
  | (k, v) :: rest => by
    rw [List.map_cons, decodeEntries, decode_encode rest, Option.map_some']

/-- C5: saving a string-keyed, string-valued mapping and loading it back
yields exactly that mapping, with no warning: the loaded object carries
the same keys in the same order with the same string values, and decodes
to exactly the saved mapping. -/
theorem snapshot_roundtrip (M : JobMap) (hk : (M.map Prod.fst).Nodup) :
    load_previous_jobs (save_current_jobs M) =
      (M.map (fun kv => (kv.1, JVal.str kv.2)), false) ∧
    decodeEntries (load_previous_jobs (save_current_jobs M)).1 = some M := by
  refine ⟨rfl, ?_⟩
  show decodeEntries (M.map (fun kv => (kv.1, JVal.str kv.2))) = some M
  exact decode_encode M

theorem snapshot_roundtrip_witness :
    load_previous_jobs (save_current_jobs [("A", "u1"), ("B", "u2")]) =
      ([("A", JVal.str "u1"), ("B", JVal.str "u2")], false) ∧
    decodeEntries (load_previous_jobs (save_current_jobs [("A", "u1"), ("B", "u2")])).1 =
      some [("A", "u1"), ("B", "u2")] := by
  have h := snapshot_roundtrip [("A", "u1"), ("B", "u2")] (by decide)
  exact h

/-- C7: a missing snapshot file loads as the empty mapping with no
warning; a file that cannot be opened or parsed loads as the empty
mapping with a warning logged; both paths return normally instead of
raising. -/
theorem load_degrades_safely :
    load_previous_jobs FileContent.absent = ([], false) ∧
    load_previous_jobs FileContent.unreadable = ([], true) :=
  ⟨rfl, rfl⟩

/-- C9: a snapshot file holding valid JSON whose top-level value is not
an object loads as the empty mapping, silently (no warning) and without
raising. -/
theorem load_non_object_empty (v : JVal) (hv : v.isObj = false) :
    load_previous_jobs (FileContent.parsed v) = ([], false) := by
  cases v with
  | obj entries => simp [JVal.isObj] at hv
  | str s => rfl
  | num n => rfl
  | jbool b => rfl
  | null => rfl
  | arr a => rfl

theorem load_non_object_witness :
    load_previous_jobs (FileContent.parsed (JVal.arr [JVal.str "A"])) = ([], false) :=
  load_non_object_empty (JVal.arr [JVal.str "A"]) rfl

/-- C10: with every SMTP environment variable set and non-empty but every
comma-separated recipient field consisting only of whitespace, the
notifier logs a warning and returns without attempting delivery. -/
theorem send_email_no_recipients_skip (env : SmtpEnv)
    (h1 : truthyStr env.SMTP_HOST = true) (h2 : truthyStr env.SMTP_PORT = true)
    (h3 : truthyStr env.SMTP_USERNAME = true) (h4 : truthyStr env.SMTP_PASSWORD = true)
    (h5 : truthyStr env.SENDER_EMAIL = true) (h6 : truthyStr env.RECIPIENTS = true)
    (hrec : ∀ a ∈ pySplitComma (env.RECIPIENTS.getD ""), pyStrip a = "") :
    send_email env = EmailOutcome.skippedNoRecipients := by
  rw [send_email, h1, h2, h3, h4, h5, h6]
  simp only [Bool.and_true, Bool.not_true, Bool.false_eq_true, if_false]
  have hfilter :
      ((pySplitComma (env.RECIPIENTS.getD "")).map pyStrip).filter (fun a => !(a == "")) = [] := by
    rw [List.filter_eq_nil_iff]
    intro a ha
    rcases List.mem_map.mp ha with ⟨b, hb, hab⟩
    rw [← hab, hrec b hb]
    simp
  rw [hfilter]
  rfl

theorem send_email_no_recipients_witness :
    send_email ⟨some "smtp.example.com", some "465", some "user", some "pw",
        some "from@example.com", some " , "⟩ = EmailOutcome.skippedNoRecipients :=
  send_email_no_recipients_skip
    ⟨some "smtp.example.com", some "465", some "user", some "pw",
        some "from@example.com", some " , "⟩
    rfl rfl rfl rfl rfl rfl (by decide)

end JobMonitor
